import Mathlib

/-!
Verification of `crystal_introspection_middleware/crystal_introspection_control.py`.

Python dictionaries are modelled as association lists with unique keys whose
order is the iteration order; `dict.keys()` (Python 2) returns a list snapshot,
which the loop embeddings take explicitly.  A raised `KeyError` is modelled as
`none`.  Machine integers do not appear: Python `int` is unbounded, modelled as
`Int`.
-/

namespace CrystalIntrospection

/-! ## Association-list dictionaries -/

abbrev Bucket := List (String × Int)
abbrev Table := List (String × Bucket)

/-- `d[k]` as an `Option`: first entry whose key is `k`. -/
def alook {α : Type} : List (String × α) → String → Option α
  | [], _ => none
  | (k, v) :: t, key => if key = k then some v else alook t key

/-- `d[k] = v`: replace in place when the key exists, else append. -/
def aset {α : Type} : List (String × α) → String → α → List (String × α)
  | [], key, v => [(key, v)]
  | (k, w) :: t, key, v => if key = k then (k, v) :: t else (k, w) :: aset t key v

/-- `del d[k]`. -/
def adel {α : Type} : List (String × α) → String → List (String × α)
  | [], _ => []
  | (k, w) :: t, key => if key = k then adel t key else (k, w) :: adel t key

/-! ## `PublishThread` (lines 75–138) -/

/-- The shared body of `PublishThread.publish_statefull` (97–103) and
`PublishThread.publish_stateless` (105–111):

    if not routing_key in data:
        data[routing_key] = dict()
        if not key in data[routing_key]:
            data[routing_key][key] = 0
    data[routing_key][key] += value

The create-at-zero `if` is nested inside the routing-key-absent branch, so when
the routing key already has a bucket that lacks `key`, the read half of the
final `+=` raises `KeyError` (`none` here) and nothing is written. -/
def recordInto (tbl : Table) (routing_key key : String) (value : Int) : Option Table :=
  let tbl1 :=
    if alook tbl routing_key = none then
      let t1 := aset tbl routing_key []
      let fresh := (alook t1 routing_key).getD []
      if alook fresh key = none then aset t1 routing_key (aset fresh key 0) else t1
    else tbl
  match alook tbl1 routing_key with
  | none => none
  | some b =>
    match alook b key with
    | none => none
    | some old => some (aset tbl1 routing_key (aset b key (old + value)))

/-- The two accumulation tables created in `PublishThread.__init__` (80–81). -/
structure PublishThreadState where
  monitoring_statefull_data : Table
  monitoring_stateless_data : Table
deriving DecidableEq, Repr

/-- `PublishThread.publish_statefull` (97–103). -/
def publish_statefull (s : PublishThreadState) (routing_key key : String) (value : Int) :
    Option PublishThreadState :=
  (recordInto s.monitoring_statefull_data routing_key key value).map
    (fun t => { s with monitoring_statefull_data := t })

/-- `PublishThread.publish_stateless` (105–111). -/
def publish_stateless (s : PublishThreadState) (routing_key key : String) (value : Int) :
    Option PublishThreadState :=
  (recordInto s.monitoring_stateless_data routing_key key value).map
    (fun t => { s with monitoring_stateless_data := t })

/-- Inner loop of the stateless flush (`PublishThread.run`, lines 123–127), over a
snapshot of the bucket's keys:

    for key in self.monitoring_stateless_data[routing_key].keys():
        if self.monitoring_stateless_data[routing_key][key] == 0:
            del self.monitoring_stateless_data[routing_key]
        else:
            self.monitoring_stateless_data[routing_key][key] = 0

A zero value deletes the whole routing-key entry, so a later key of the same
snapshot finds the outer lookup gone (`KeyError`, modelled `none`). -/
def zeroPhase (tbl : Table) (routing_key : String) : List String → Option Table
  | [] => some tbl
  | key :: rest =>
    match alook tbl routing_key with
    | none => none
    | some b =>
      match alook b key with
      | none => none
      | some v =>
        if v = 0 then zeroPhase (adel tbl routing_key) routing_key rest
        else zeroPhase (aset tbl routing_key (aset b key 0)) routing_key rest

/-- Outer stateless loop of `PublishThread.run` (120–131) over a snapshot of the
table's keys.  Per routing key: `data[self.ip] = …[routing_key].copy()` (the
published body, collected in the returned report list), then the zero phase over
the bucket's key snapshot, then `basic_publish`. -/
def statelessLoop (tbl : Table) : List String → Option (Table × List (String × Bucket))
  | [] => some (tbl, [])
  | rk :: rest =>
    match alook tbl rk with
    | none => none
    | some b =>
      match zeroPhase tbl rk (b.map Prod.fst) with
      | none => none
      | some tbl' => (statelessLoop tbl' rest).map (fun p => (p.1, (rk, b) :: p.2))

/-- One stateless flush of a `PublishThread.run` tick: the loop above, started on
the key snapshot of the live table.  Returns the table afterwards and the list
of `(routing_key, published copy)` in publish order. -/
def publishTickStateless (tbl : Table) : Option (Table × List (String × Bucket)) :=
  statelessLoop tbl (tbl.map Prod.fst)

/-- Stateful loop of `PublishThread.run` (133–138): per routing key,
`data[self.ip] = …[routing_key].copy()` then `basic_publish` — the table is only
read, never written. -/
def statefullLoop (tbl : Table) : List String → Option (Table × List (String × Bucket))
  | [] => some (tbl, [])
  | rk :: rest =>
    match alook tbl rk with
    | none => none
    | some b => (statefullLoop tbl rest).map (fun p => (p.1, (rk, b) :: p.2))

/-- One stateful flush of a `PublishThread.run` tick. -/
def publishTickStatefull (tbl : Table) : Option (Table × List (String × Bucket)) :=
  statefullLoop tbl (tbl.map Prod.fst)

/-! ## Dictionary lemmas -/

section AList

variable {α : Type}

@[simp] theorem alook_nil (key : String) : alook ([] : List (String × α)) key = none := rfl

@[simp] theorem alook_cons (a : String) (b : α) (t : List (String × α)) (key : String) :
    alook ((a, b) :: t) key = if key = a then some b else alook t key := rfl

@[simp] theorem aset_nil (key : String) (v : α) : aset [] key v = [(key, v)] := rfl

@[simp] theorem aset_cons (a : String) (b : α) (t : List (String × α)) (key : String) (v : α) :
    aset ((a, b) :: t) key v = if key = a then (a, v) :: t else (a, b) :: aset t key v := rfl

@[simp] theorem adel_nil (key : String) : adel ([] : List (String × α)) key = [] := rfl

@[simp] theorem adel_cons (a : String) (b : α) (t : List (String × α)) (key : String) :
    adel ((a, b) :: t) key = if key = a then adel t key else (a, b) :: adel t key := rfl

@[simp] theorem alook_aset_self (t : List (String × α)) (k : String) (v : α) :
    alook (aset t k v) k = some v := by
  induction t with
  | nil => simp
  | cons p t ih =>
    obtain ⟨a, b⟩ := p
    by_cases h : k = a <;> simp [h, ih]

theorem alook_aset_ne (t : List (String × α)) {k k' : String} (v : α) (h : k' ≠ k) :
    alook (aset t k v) k' = alook t k' := by
  induction t with
  | nil => simp [h]
  | cons p t ih =>
    obtain ⟨a, b⟩ := p
    by_cases hq : k = a
    · subst hq; simp [h]
    · by_cases h' : k' = a <;> simp [h', hq, ih]

theorem aset_aset (t : List (String × α)) (k : String) (a b : α) :
    aset (aset t k a) k b = aset t k b := by
  induction t with
  | nil => simp
  | cons p t ih =>
    obtain ⟨c, d⟩ := p
    by_cases h : k = c <;> simp [h, ih]

@[simp] theorem alook_adel_self (t : List (String × α)) (k : String) :
    alook (adel t k) k = none := by
  induction t with
  | nil => simp
  | cons p t ih =>
    obtain ⟨a, b⟩ := p
    by_cases h : k = a
    · subst h; simp [ih]
    · simp [h, ih]

theorem alook_adel_ne (t : List (String × α)) {k k' : String} (h : k' ≠ k) :
    alook (adel t k) k' = alook t k' := by
  induction t with
  | nil => simp
  | cons p t ih =>
    obtain ⟨a, b⟩ := p
    by_cases hq : k = a
    · subst hq; simp [h, ih]
    · by_cases h' : k' = a <;> simp [h', hq, ih]

theorem alook_mem {t : List (String × α)} {k : String} {v : α} (h : alook t k = some v) :
    (k, v) ∈ t := by
  induction t with
  | nil => simp at h
  | cons p t ih =>
    obtain ⟨a, b⟩ := p
    by_cases hk : k = a
    · subst hk
      simp at h
      subst h
      exact List.mem_cons_self _ _
    · simp [hk] at h
      exact List.mem_cons_of_mem _ (ih h)

theorem alook_eq_none {t : List (String × α)} {k : String} :
    alook t k = none ↔ k ∉ t.map Prod.fst := by
  induction t with
  | nil => simp
  | cons p t ih =>
    obtain ⟨a, b⟩ := p
    by_cases hk : k = a <;> simp [hk, ih]

theorem mem_aset {t : List (String × α)} {k : String} {v : α} {p : String × α}
    (h : p ∈ aset t k v) : p ∈ t ∨ p = (k, v) := by
  induction t with
  | nil => simp at h; right; exact h
  | cons q t ih =>
    obtain ⟨a, b⟩ := q
    by_cases hk : k = a
    · subst hk
      simp at h
      rcases h with h | h
      · right; rw [h]
      · left; exact List.mem_cons_of_mem _ h
    · simp [hk] at h
      rcases h with h | h
      · left; simp [h]
      · rcases ih h with h' | h'
        · left; exact List.mem_cons_of_mem _ h'
        · right; exact h'

theorem mem_adel {t : List (String × α)} {k : String} {p : String × α}
    (h : p ∈ adel t k) : p ∈ t := by
  induction t with
  | nil => simp at h
  | cons q t ih =>
    obtain ⟨a, b⟩ := q
    by_cases hk : k = a
    · subst hk
      simp at h
      exact List.mem_cons_of_mem _ (ih h)
    · simp [hk] at h
      rcases h with h | h
      · simp [h]
      · exact List.mem_cons_of_mem _ (ih h)

theorem keys_aset_of_mem {t : List (String × α)} {k : String} (v : α)
    (h : k ∈ t.map Prod.fst) : (aset t k v).map Prod.fst = t.map Prod.fst := by
  induction t with
  | nil => simp at h
  | cons q t ih =>
    obtain ⟨a, b⟩ := q
    by_cases hk : k = a
    · simp [hk]
    · rw [List.map_cons] at h
      rcases List.mem_cons.mp h with h1 | h1
      · exact absurd h1 hk
      · simp [hk, ih h1]

theorem keys_aset_of_not_mem {t : List (String × α)} {k : String} (v : α)
    (h : k ∉ t.map Prod.fst) : (aset t k v).map Prod.fst = t.map Prod.fst ++ [k] := by
  induction t with
  | nil => simp
  | cons q t ih =>
    obtain ⟨a, b⟩ := q
    have hka : k ≠ a := by intro hk; exact h (by simp [hk])
    have ht : k ∉ t.map Prod.fst := by
      intro hm; exact h (by rw [List.map_cons]; exact List.mem_cons_of_mem _ hm)
    simp [hka, ih ht]

theorem keys_adel_sublist (t : List (String × α)) (k : String) :
    ((adel t k).map Prod.fst).Sublist (t.map Prod.fst) := by
  induction t with
  | nil => simp
  | cons q t ih =>
    obtain ⟨a, b⟩ := q
    by_cases hk : k = a
    · simp only [adel_cons, if_pos hk, List.map_cons]
      exact ih.trans (List.sublist_cons_self _ _)
    · simpa [hk] using ih

end AList

/-! ## `Singleton` and `CrystalIntrospectionControl` (lines 7–73) -/

/-- The `started`/`daemon` flags of a `threading.Thread`; `Thread.start` is what
would flip `started`, and the file never calls it. -/
structure ThreadFlags where
  started : Bool
  daemon : Bool
deriving DecidableEq, Repr

/-- `Thread.__init__` (called from both loop constructors): a fresh thread is
not started and not a daemon. -/
def Thread.base : ThreadFlags := { started := false, daemon := false }

/-- `CrystalIntrospectionControl.__init__` (54–64) as far as thread lifecycle
goes: builds both loop threads, sets their `daemon` flags, sets
`threads_started = False` — and contains no call to `Thread.start`. -/
structure CICInstance where
  control_thread : ThreadFlags
  publish_thread : ThreadFlags
  threads_started : Bool
deriving DecidableEq, Repr

def CrystalIntrospectionControl.mkInstance : CICInstance :=
  { control_thread := { Thread.base with daemon := true },
    publish_thread := { Thread.base with daemon := true },
    threads_started := false }

/-- The decorator's cached `self._instance`; absent until the first call. -/
structure SingletonState where
  cached : Option CICInstance
deriving DecidableEq, Repr

/-- `Singleton.Instance` (26–43): returns the cached instance when the attribute
exists, otherwise (the `AttributeError` branch) constructs the decorated class
and caches it.  The `Bool` records whether this call ran the constructor. -/
def Singleton.Instance (s : SingletonState) : CICInstance × SingletonState × Bool :=
  match s.cached with
  | some inst => (inst, s, false)
  | none =>
    let inst := CrystalIntrospectionControl.mkInstance
    (inst, { cached := some inst }, true)

/-! ## `ControlThread` (lines 141–160) -/

/-- The fetched metric-definition hash: `string → string`, as
`redis.hgetall("metrics")` returns. -/
abbrev DefTable := List (String × String)

/-- `ControlThread.__init__` line 146: `conf.get('control_interval', 10)`. -/
def control_interval (conf : String → Option Nat) : Nat :=
  (conf "control_interval").getD 10

/-- Observable events of `ControlThread.run`: a fetch of the hash named
`"metrics"` (numbered by iteration) or a sleep of the configured interval. -/
inductive ControlEvent where
  | fetch (iteration : Nat)
  | sleep (secs : Nat)
deriving DecidableEq, Repr

/-- The event trace of the first `n` iterations of `ControlThread.run` (157–160):
each iteration fetches, then sleeps — so the very first fetch precedes any
sleep. -/
def controlEvents (interval : Nat) : Nat → List ControlEvent
  | 0 => []
  | n + 1 => controlEvents interval n ++ [ControlEvent.fetch n, ControlEvent.sleep interval]

/-- Line 159, `self.metric_list = self.redis.hgetall("metrics")`: plain
assignment — the previous cached table plays no part. -/
def controlAssign (fetched _metric_list : DefTable) : DefTable := fetched

/-- `self.metric_list` after `n` iterations of the loop, given the table each
fetch returns; `init` is the `{}` from `__init__` (line 155). -/
def controlCache (fetches : Nat → DefTable) (init : DefTable) : Nat → DefTable
  | 0 => init
  | n + 1 => controlAssign (fetches n) (controlCache fetches init n)

/-! ## Object identity for `get_metrics` (lines 66–67)

`get_metrics` returns `self.control_thread.metric_list`, a reference to a
mutable dict.  To talk about aliasing, this part of the state is modelled with
an explicit heap of dict objects addressed by `Nat`. -/

structure ControlHeap where
  /-- contents of every dict object, by address -/
  heap : Nat → DefTable
  /-- the address `self.control_thread.metric_list` currently holds -/
  metric_list : Nat
  /-- next fresh address -/
  next : Nat

def readRef (s : ControlHeap) (r : Nat) : DefTable := s.heap r

/-- In-place mutation of the dict object at address `r`. -/
def writeRef (s : ControlHeap) (r : Nat) (t : DefTable) : ControlHeap :=
  { s with heap := fun n => if n = r then t else s.heap n }

/-- `CrystalIntrospectionControl.get_metrics` (66–67):
`return self.control_thread.metric_list` — the reference itself, no copy. -/
def get_metrics (s : ControlHeap) : Nat := s.metric_list

/-- Modelled from the spec: `getMetrics` "returns the current
MetricDefinitionTable snapshot (a copy, to avoid aliasing races)" — allocates a
fresh dict with the same contents and returns its address. -/
def get_metrics_copy (s : ControlHeap) : Nat × ControlHeap :=
  (s.next,
    { heap := fun n => if n = s.next then s.heap s.metric_list else s.heap n,
      metric_list := s.metric_list,
      next := s.next + 1 })

/-- One `ControlThread.run` assignment (line 159) in the heap model: `hgetall`
builds a fresh dict holding `fetched` and the attribute is rebound to it. -/
def controlOverwrite (s : ControlHeap) (fetched : DefTable) : ControlHeap :=
  { heap := fun n => if n = s.next then fetched else s.heap n,
    metric_list := s.next,
    next := s.next + 1 }

/-! ## Operation traces

Caller-side record calls interleaved with `PublishThread.run` ticks.  A record
whose `+=` raises `KeyError` leaves the table untouched (the exception goes to
the recording caller, not a loop); a tick that raises kills the publish loop,
modelled by `none`. -/

/-- Record calls on one fixed `(routingKey, metricKey)` pair, and drains. -/
inductive MetricOp where
  | record (delta : Int)
  | drain
deriving DecidableEq, Repr

/-- Sum of the leading deltas, up to the first drain. -/
def leadingRecSum : List MetricOp → Int
  | [] => 0
  | MetricOp.drain :: _ => 0
  | MetricOp.record d :: rest => d + leadingRecSum rest

/-- Sum of the deltas recorded after the last drain of `ops`. -/
def pendingSum (ops : List MetricOp) : Int := leadingRecSum ops.reverse

/-- Sum of every delta in `ops`, across drains. -/
def totalSum : List MetricOp → Int
  | [] => 0
  | MetricOp.record d :: rest => d + totalSum rest
  | MetricOp.drain :: rest => totalSum rest

/-- Whether `ops` records at all. -/
def hasRec : List MetricOp → Bool
  | [] => false
  | MetricOp.record _ :: _ => true
  | MetricOp.drain :: rest => hasRec rest

/-- One operation on the stateless table: `publish_stateless`'s table update, or
the stateless flush of a `PublishThread.run` tick. -/
def slStep (rk mk : String) (t : Table) : MetricOp → Option Table
  | MetricOp.record d => recordInto t rk mk d
  | MetricOp.drain => (publishTickStateless t).map Prod.fst

/-- One operation on the stateful table: `publish_statefull`'s table update, or
the stateful flush of a tick. -/
def sfStep (rk mk : String) (t : Table) : MetricOp → Option Table
  | MetricOp.record d => recordInto t rk mk d
  | MetricOp.drain => (publishTickStatefull t).map Prod.fst

def execOps (step : Table → MetricOp → Option Table) (t : Table) : List MetricOp → Option Table
  | [] => some t
  | op :: rest => (step t op).bind (fun t' => execOps step t' rest)

def slExec (rk mk : String) (t : Table) (ops : List MetricOp) : Option Table :=
  execOps (slStep rk mk) t ops

def sfExec (rk mk : String) (t : Table) (ops : List MetricOp) : Option Table :=
  execOps (sfStep rk mk) t ops

/-- Full-store operations, over arbitrary keys, as issued through
`CrystalIntrospectionControl.publish_stateful_metric` /
`publish_stateless_metric` (69–73) and the publish tick. -/
inductive StoreOp where
  | recStateful (rk mk : String) (delta : Int)
  | recStateless (rk mk : String) (delta : Int)
  | drain
deriving DecidableEq, Repr

/-- One full-store step.  A failed record (`KeyError` out of the mis-nested
create) propagates to the recording caller and leaves both tables unchanged; a
failed tick is `none`. -/
def storeStep (s : PublishThreadState) : StoreOp → Option PublishThreadState
  | StoreOp.recStateful rk mk d =>
    some (match recordInto s.monitoring_statefull_data rk mk d with
      | some t => { s with monitoring_statefull_data := t }
      | none => s)
  | StoreOp.recStateless rk mk d =>
    some (match recordInto s.monitoring_stateless_data rk mk d with
      | some t => { s with monitoring_stateless_data := t }
      | none => s)
  | StoreOp.drain =>
    match publishTickStateless s.monitoring_stateless_data with
    | none => none
    | some (tl, _) =>
      match publishTickStatefull s.monitoring_statefull_data with
      | none => none
      | some (tf, _) =>
        some { monitoring_statefull_data := tf, monitoring_stateless_data := tl }

def storeExec (s : PublishThreadState) : List StoreOp → Option PublishThreadState
  | [] => some s
  | op :: rest => (storeStep s op).bind (fun s' => storeExec s' rest)

/-- The operations issued after the last drain of `ops` (everything, when no
drain occurs). -/
def opsSinceLastDrain (ops : List StoreOp) : List StoreOp :=
  (ops.reverse.takeWhile (fun o => o ≠ StoreOp.drain)).reverse

/-- `(rk, mk)` has an entry in `t`. -/
def present (t : Table) (rk mk : String) : Prop :=
  ∃ b, alook t rk = some b ∧ (alook b mk).isSome

instance (t : Table) (rk mk : String) : Decidable (present t rk mk) := by
  unfold present
  cases alook t rk with
  | none => exact isFalse (by simp)
  | some b => exact decidable_of_iff ((alook b mk).isSome) (by simp)

/-- The stateless tables reachable from the empty initial table through
`publish_stateless` calls (successful or not — a failed call changes nothing)
and stateless flushes. -/
inductive ReachableSL : Table → Prop where
  | init : ReachableSL []
  | record (t t' : Table) (rk mk : String) (d : Int) :
      ReachableSL t → recordInto t rk mk d = some t' → ReachableSL t'
  | drain (t t' : Table) (rs : List (String × Bucket)) :
      ReachableSL t → publishTickStateless t = some (t', rs) → ReachableSL t'

/-- Every bucket of `t` holds exactly one metric key, and routing keys are
unique. -/
def singletonTable (t : Table) : Prop :=
  (t.map Prod.fst).Nodup ∧ ∀ p ∈ t, ∃ mk v, p.2 = [(mk, v)]

/-! ## Computation lemmas for the record and flush operations -/

/-- A record for an absent routing key creates the bucket and lands the delta. -/
theorem recordInto_new (t : Table) (rk mk : String) (d : Int) (h : alook t rk = none) :
    recordInto t rk mk d = some (aset t rk [(mk, d)]) := by
  unfold recordInto
  simp only [h, if_pos rfl, alook_aset_self, Option.getD_some, alook_nil,
    aset_nil, aset_aset]
  simp [aset_aset]

/-- A record for an existing `(routing key, metric key)` pair adds the delta. -/
theorem recordInto_found {t : Table} {rk mk : String} {b : Bucket} {old : Int} (d : Int)
    (hrk : alook t rk = some b) (hmk : alook b mk = some old) :
    recordInto t rk mk d = some (aset t rk (aset b mk (old + d))) := by
  unfold recordInto
  simp [hrk, hmk]

/-- The mis-nested create: routing key present, metric key absent — `KeyError`. -/
theorem recordInto_missing_key {t : Table} {rk mk : String} {b : Bucket}
    (d : Int) (hrk : alook t rk = some b) (hmk : alook b mk = none) :
    recordInto t rk mk d = none := by
  unfold recordInto
  simp [hrk, hmk]

theorem recordInto_empty (rk mk : String) (d : Int) :
    recordInto [] rk mk d = some [(rk, [(mk, d)])] := by
  simpa using recordInto_new [] rk mk d rfl

theorem recordInto_single (rk mk : String) (s d : Int) :
    recordInto [(rk, [(mk, s)])] rk mk d = some [(rk, [(mk, s + d)])] := by
  have h1 : alook [(rk, [(mk, s)])] rk = some [(mk, s)] := by simp
  have h2 : alook [(mk, s)] mk = some s := by simp
  rw [recordInto_found d h1 h2]
  simp

@[simp] theorem publishTickStateless_nil : publishTickStateless [] = some ([], []) := rfl

@[simp] theorem publishTickStatefull_nil : publishTickStatefull [] = some ([], []) := rfl

/-- The stateless flush on a one-pair table: the pre-flush bucket is published;
a zero total deletes the routing key, a nonzero total is reset in place. -/
theorem publishTickStateless_single (rk mk : String) (s : Int) :
    publishTickStateless [(rk, [(mk, s)])] =
      some (if s = 0 then [] else [(rk, [(mk, 0)])], [(rk, [(mk, s)])]) := by
  by_cases hs : s = 0 <;>
    simp [publishTickStateless, statelessLoop, zeroPhase, hs]

/-- The stateful flush on a one-pair table publishes the bucket and keeps the
table as it is. -/
theorem publishTickStatefull_single (rk mk : String) (s : Int) :
    publishTickStatefull [(rk, [(mk, s)])] =
      some ([(rk, [(mk, s)])], [(rk, [(mk, s)])]) := by
  simp [publishTickStatefull, statefullLoop]

theorem execOps_append (step : Table → MetricOp → Option Table) (t : Table)
    (ops : List MetricOp) (op : MetricOp) :
    execOps step t (ops ++ [op]) = (execOps step t ops).bind (fun t' => step t' op) := by
  induction ops generalizing t with
  | nil => simp [execOps]
  | cons o rest ih =>
    simp only [List.cons_append, execOps]
    cases step t o with
    | none => simp
    | some t' => simp [ih]

@[simp] theorem pendingSum_nil : pendingSum [] = 0 := rfl

@[simp] theorem pendingSum_snoc_record (ops : List MetricOp) (d : Int) :
    pendingSum (ops ++ [MetricOp.record d]) = d + pendingSum ops := by
  simp [pendingSum, leadingRecSum]

@[simp] theorem pendingSum_snoc_drain (ops : List MetricOp) :
    pendingSum (ops ++ [MetricOp.drain]) = 0 := by
  simp [pendingSum, leadingRecSum]

@[simp] theorem totalSum_snoc_record (ops : List MetricOp) (d : Int) :
    totalSum (ops ++ [MetricOp.record d]) = totalSum ops + d := by
  induction ops with
  | nil => simp [totalSum]
  | cons o rest ih =>
    cases o with
    | record d' => simp [totalSum, ih]; ring
    | drain => simp [totalSum, ih]

@[simp] theorem totalSum_snoc_drain (ops : List MetricOp) :
    totalSum (ops ++ [MetricOp.drain]) = totalSum ops := by
  induction ops with
  | nil => simp [totalSum]
  | cons o rest ih => cases o <;> simp [totalSum, ih]

@[simp] theorem hasRec_snoc_record (ops : List MetricOp) (d : Int) :
    hasRec (ops ++ [MetricOp.record d]) = true := by
  induction ops with
  | nil => simp [hasRec]
  | cons o rest ih => cases o <;> simp [hasRec, ih]

@[simp] theorem hasRec_snoc_drain (ops : List MetricOp) :
    hasRec (ops ++ [MetricOp.drain]) = hasRec ops := by
  induction ops with
  | nil => simp [hasRec]
  | cons o rest ih => cases o <;> simp [hasRec, ih]

/-- `hasRec` is exactly "some delta occurs", so a record-free run sums to 0. -/
theorem totalSum_eq_zero_of_hasRec_false {ops : List MetricOp} (h : hasRec ops = false) :
    totalSum ops = 0 := by
  induction ops with
  | nil => rfl
  | cons o rest ih =>
    cases o with
    | record d => simp [hasRec] at h
    | drain => simp [hasRec] at h; simp [totalSum, ih h]

/-- The stateful flush never writes the table: the first component of a
successful `statefullLoop` is the input table. -/
theorem statefullLoop_fst {t : Table} {rks : List String} {p : Table × List (String × Bucket)}
    (h : statefullLoop t rks = some p) : p.1 = t := by
  induction rks generalizing p with
  | nil => simp [statefullLoop] at h; rw [← h]
  | cons rk rest ih =>
    unfold statefullLoop at h
    rcases hb : alook t rk with _ | b <;> rw [hb] at h
    · cases h
    · have h' : Option.map (fun p => (p.1, (rk, b) :: p.2)) (statefullLoop t rest) = some p := h
      rw [Option.map_eq_some'] at h'
      obtain ⟨q, hq, hqp⟩ := h'
      rw [← hqp]
      have hqt := ih hq
      exact hqt

/-- Single-pair stateless runs: the table is empty or holds exactly the pending
(since-last-drain) sum, and no step ever fails. -/
theorem slExec_inv (rk mk : String) (ops : List MetricOp) :
    ∃ t, slExec rk mk [] ops = some t ∧
      ((t = [] ∧ pendingSum ops = 0) ∨ t = [(rk, [(mk, pendingSum ops)])]) := by
  induction ops using List.reverseRecOn with
  | nil => exact ⟨[], rfl, Or.inl ⟨rfl, rfl⟩⟩
  | append_singleton ops op ih =>
    obtain ⟨t, hex, hshape⟩ := ih
    have hsnoc : slExec rk mk [] (ops ++ [op]) = (slStep rk mk t op) := by
      rw [slExec, execOps_append, ← slExec, hex, Option.some_bind]
    cases op with
    | record d =>
      rcases hshape with ⟨rfl, hp⟩ | rfl
      · refine ⟨[(rk, [(mk, d)])], ?_, Or.inr ?_⟩
        · rw [hsnoc]; simp [slStep, recordInto_empty]
        · rw [pendingSum_snoc_record, hp, add_zero]
      · refine ⟨[(rk, [(mk, pendingSum ops + d)])], ?_, Or.inr ?_⟩
        · rw [hsnoc]; simp [slStep, recordInto_single]
        · rw [pendingSum_snoc_record, add_comm]
    | drain =>
      rcases hshape with ⟨rfl, hp⟩ | rfl
      · exact ⟨[], by rw [hsnoc]; rfl, Or.inl ⟨rfl, pendingSum_snoc_drain ops⟩⟩
      · by_cases hz : pendingSum ops = 0
        · refine ⟨[], ?_, Or.inl ⟨rfl, pendingSum_snoc_drain ops⟩⟩
          rw [hsnoc]; simp [slStep, publishTickStateless_single, hz]
        · refine ⟨[(rk, [(mk, 0)])], ?_, Or.inr ?_⟩
          · rw [hsnoc]; simp [slStep, publishTickStateless_single, hz]
          · rw [pendingSum_snoc_drain]

/-- Single-pair stateful runs: the table holds exactly the all-time sum once a
record has happened, and no step ever fails. -/
theorem sfExec_inv (rk mk : String) (ops : List MetricOp) :
    ∃ t, sfExec rk mk [] ops = some t ∧
      ((t = [] ∧ hasRec ops = false) ∨
        (hasRec ops = true ∧ t = [(rk, [(mk, totalSum ops)])])) := by
  induction ops using List.reverseRecOn with
  | nil => exact ⟨[], rfl, Or.inl ⟨rfl, rfl⟩⟩
  | append_singleton ops op ih =>
    obtain ⟨t, hex, hshape⟩ := ih
    have hsnoc : sfExec rk mk [] (ops ++ [op]) = (sfStep rk mk t op) := by
      rw [sfExec, execOps_append, ← sfExec, hex, Option.some_bind]
    cases op with
    | record d =>
      rcases hshape with ⟨rfl, hp⟩ | ⟨hp, rfl⟩
      · refine ⟨[(rk, [(mk, d)])], ?_, Or.inr ⟨hasRec_snoc_record ops d, ?_⟩⟩
        · rw [hsnoc]; simp [sfStep, recordInto_empty]
        · rw [totalSum_snoc_record, totalSum_eq_zero_of_hasRec_false hp, zero_add]
      · refine ⟨[(rk, [(mk, totalSum ops + d)])], ?_,
          Or.inr ⟨hasRec_snoc_record ops d, ?_⟩⟩
        · rw [hsnoc]; simp [sfStep, recordInto_single]
        · rw [totalSum_snoc_record]
    | drain =>
      rcases hshape with ⟨rfl, hp⟩ | ⟨hp, rfl⟩
      · exact ⟨[], by rw [hsnoc]; rfl,
          Or.inl ⟨rfl, by rw [hasRec_snoc_drain]; exact hp⟩⟩
      · refine ⟨[(rk, [(mk, totalSum ops)])], ?_, Or.inr ⟨?_, ?_⟩⟩
        · rw [hsnoc]; simp [sfStep, publishTickStatefull_single]
        · rw [hasRec_snoc_drain]; exact hp
        · rw [totalSum_snoc_drain]

/-! ## Reachable stateless tables have singleton buckets -/

theorem alook_ne_none_of_mem_keys {t : Table} {k : String} (h : k ∈ t.map Prod.fst) :
    alook t k ≠ none := fun hn => (alook_eq_none.mp hn) h

theorem mem_keys_of_alook {t : Table} {k : String} {b : Bucket} (h : alook t k = some b) :
    k ∈ t.map Prod.fst := by
  by_contra hm
  rw [alook_eq_none.mpr hm] at h
  cases h

/-- A successful record keeps every bucket a one-key bucket: it either creates a
fresh one-key bucket or rewrites the single key of an existing one. -/
theorem recordInto_preserves_singleton {t t' : Table} {rk mk : String} {d : Int}
    (ht : singletonTable t) (h : recordInto t rk mk d = some t') : singletonTable t' := by
  rcases hrk : alook t rk with _ | b
  · rw [recordInto_new t rk mk d hrk] at h
    injection h with h
    subst h
    constructor
    · rw [keys_aset_of_not_mem _ (alook_eq_none.mp hrk)]
      refine ht.1.append (List.nodup_singleton rk) ?_
      intro a ha hb
      rw [List.mem_singleton] at hb
      subst hb
      exact (alook_eq_none.mp hrk) ha
    · intro p hp
      rcases mem_aset hp with h' | rfl
      · exact ht.2 p h'
      · exact ⟨mk, d, rfl⟩
  · obtain ⟨mk0, v0, hb⟩ := ht.2 (rk, b) (alook_mem hrk)
    simp only at hb
    subst hb
    by_cases hmk : mk = mk0
    · subst hmk
      have hmkl : alook [(mk, v0)] mk = some v0 := by simp
      rw [recordInto_found d hrk hmkl] at h
      injection h with h
      subst h
      constructor
      · rw [keys_aset_of_mem _ (mem_keys_of_alook hrk)]
        exact ht.1
      · intro p hp
        rcases mem_aset hp with h' | rfl
        · exact ht.2 p h'
        · exact ⟨mk, v0 + d, by simp⟩
    · rw [recordInto_missing_key d hrk (by simp [hmk])] at h
      cases h

/-- On a singleton-bucket table the stateless loop never hits the mid-iteration
`KeyError`: each bucket's single key is processed and either removes the
routing key (zero) or resets it in place (nonzero). -/
theorem statelessLoop_good (rks : List String) (t : Table)
    (ht : singletonTable t) (hmem : ∀ k ∈ rks, alook t k ≠ none) (hnd : rks.Nodup) :
    ∃ t' rs, statelessLoop t rks = some (t', rs) ∧ singletonTable t' ∧
      (∀ k, alook t' k ≠ none → alook t k ≠ none) := by
  induction rks generalizing t with
  | nil => exact ⟨t, [], rfl, ht, fun _ h => h⟩
  | cons rk rest ih =>
    rcases hb : alook t rk with _ | b
    · exact absurd hb (hmem rk (List.mem_cons_self rk rest))
    obtain ⟨mk, v, hb2⟩ := ht.2 (rk, b) (alook_mem hb)
    simp only at hb2
    subst hb2
    have hz : zeroPhase t rk ([(mk, v)].map Prod.fst) =
        some (if v = 0 then adel t rk else aset t rk [(mk, 0)]) := by
      by_cases hv : v = 0 <;> simp [zeroPhase, hb, hv]
    have ht2 : singletonTable (if v = 0 then adel t rk else aset t rk [(mk, 0)]) := by
      by_cases hv : v = 0
      · rw [if_pos hv]
        exact ⟨(keys_adel_sublist t rk).nodup ht.1, fun p hp => ht.2 p (mem_adel hp)⟩
      · rw [if_neg hv]
        refine ⟨?_, ?_⟩
        · rw [keys_aset_of_mem _ (mem_keys_of_alook hb)]
          exact ht.1
        · intro p hp
          rcases mem_aset hp with h' | rfl
          · exact ht.2 p h'
          · exact ⟨mk, 0, rfl⟩
    have htrans : ∀ k, alook (if v = 0 then adel t rk else aset t rk [(mk, 0)]) k ≠ none →
        alook t k ≠ none := by
      intro k hk
      by_cases hkr : k = rk
      · subst hkr
        rw [hb]
        exact fun hc => Option.noConfusion hc
      · by_cases hv : v = 0
        · rw [if_pos hv, alook_adel_ne t hkr] at hk
          exact hk
        · rw [if_neg hv, alook_aset_ne t _ hkr] at hk
          exact hk
    have hmem2 : ∀ k ∈ rest, alook (if v = 0 then adel t rk else aset t rk [(mk, 0)]) k ≠ none := by
      intro k hk
      have hkr : k ≠ rk := by
        rintro rfl
        exact (List.nodup_cons.mp hnd).1 hk
      by_cases hv : v = 0
      · rw [if_pos hv, alook_adel_ne t hkr]
        exact hmem k (List.mem_cons_of_mem _ hk)
      · rw [if_neg hv, alook_aset_ne t _ hkr]
        exact hmem k (List.mem_cons_of_mem _ hk)
    obtain ⟨t', rs, hloop, ht', htr⟩ := ih _ ht2 hmem2 (List.nodup_cons.mp hnd).2
    refine ⟨t', (rk, [(mk, v)]) :: rs, ?_, ht', fun k hk => htrans k (htr k hk)⟩
    simp only [statelessLoop, hb, hz, hloop, Option.map_some']

/-- A full stateless flush succeeds on every singleton-bucket table and yields
one again. -/
theorem publishTickStateless_good {t : Table} (ht : singletonTable t) :
    ∃ t' rs, publishTickStateless t = some (t', rs) ∧ singletonTable t' := by
  obtain ⟨t', rs, hloop, ht', _⟩ :=
    statelessLoop_good (t.map Prod.fst) t ht (fun k hk => alook_ne_none_of_mem_keys hk) ht.1
  exact ⟨t', rs, hloop, ht'⟩

/-- Every reachable stateless table has singleton buckets: the mis-nested create
in `publish_stateless` never lets a second metric key join an existing bucket. -/
theorem reachable_singleton {t : Table} (h : ReachableSL t) : singletonTable t := by
  induction h with
  | init => exact ⟨List.nodup_nil, by simp⟩
  | record t t' rk mk d _ hrec ih => exact recordInto_preserves_singleton ih hrec
  | drain t t' rs _ htick ih =>
    obtain ⟨t'', rs'', htick', ht''⟩ := publishTickStateless_good ih
    rw [htick] at htick'
    injection htick' with htick'
    have ht2 : t' = t'' := congrArg Prod.fst htick'
    rw [ht2]
    exact ht''

/-! ## Where table entries can come from -/

theorem alook_aset_isSome {α : Type} {l : List (String × α)} {k k' : String} {v : α}
    (h : (alook (aset l k v) k').isSome) : k' = k ∨ (alook l k').isSome := by
  by_cases hk : k' = k
  · exact Or.inl hk
  · right
    rwa [alook_aset_ne l v hk] at h

theorem present_adel {t : Table} {k rk mk : String} (h : present (adel t k) rk mk) :
    present t rk mk := by
  obtain ⟨b, hb, hmk⟩ := h
  by_cases hk : rk = k
  · subst hk
    rw [alook_adel_self] at hb
    cases hb
  · rw [alook_adel_ne t hk] at hb
    exact ⟨b, hb, hmk⟩

/-- An entry present after a record was present before, or is the recorded pair
itself. -/
theorem present_recordInto {t t' : Table} {rk' mk' : String} {d : Int}
    (h : recordInto t rk' mk' d = some t') {rk mk : String} (hp : present t' rk mk) :
    present t rk mk ∨ (rk = rk' ∧ mk = mk') := by
  rcases hrk : alook t rk' with _ | b
  · rw [recordInto_new t rk' mk' d hrk] at h
    injection h with h
    subst h
    obtain ⟨b', hb', hmk⟩ := hp
    by_cases hr : rk = rk'
    · subst hr
      rw [alook_aset_self] at hb'
      injection hb' with hb'
      subst hb'
      right
      refine ⟨rfl, ?_⟩
      by_cases hm : mk = mk'
      · exact hm
      · simp [hm] at hmk
    · left
      rw [alook_aset_ne t _ hr] at hb'
      exact ⟨b', hb', hmk⟩
  · rcases hmk0 : alook b mk' with _ | old
    · rw [recordInto_missing_key d hrk hmk0] at h
      cases h
    · rw [recordInto_found d hrk hmk0] at h
      injection h with h
      subst h
      obtain ⟨b', hb', hmk⟩ := hp
      by_cases hr : rk = rk'
      · subst hr
        rw [alook_aset_self] at hb'
        injection hb' with hb'
        subst hb'
        rcases alook_aset_isSome hmk with rfl | hs
        · right; exact ⟨rfl, rfl⟩
        · left; exact ⟨b, hrk, hs⟩
      · left
        rw [alook_aset_ne t _ hr] at hb'
        exact ⟨b', hb', hmk⟩

/-- The zero phase only removes or zeroes entries — it creates none. -/
theorem present_zeroPhase {t t' : Table} {rk' : String} {ks : List String}
    (h : zeroPhase t rk' ks = some t') {rk mk : String} (hp : present t' rk mk) :
    present t rk mk := by
  induction ks generalizing t with
  | nil =>
    simp [zeroPhase] at h
    subst h
    exact hp
  | cons k rest ih =>
    unfold zeroPhase at h
    split at h
    · cases h
    rename_i b hb
    split at h
    · cases h
    rename_i v hv
    split at h
    · exact present_adel (ih h)
    · have h2 := ih h
      obtain ⟨b', hb', hmk⟩ := h2
      by_cases hr : rk = rk'
      · subst hr
        rw [alook_aset_self] at hb'
        injection hb' with hb'
        subst hb'
        rcases alook_aset_isSome hmk with rfl | hs
        · exact ⟨b, hb, by rw [hv]; rfl⟩
        · exact ⟨b, hb, hs⟩
      · rw [alook_aset_ne t _ hr] at hb'
        exact ⟨b', hb', hmk⟩

/-- The stateless flush creates no entries either. -/
theorem present_statelessLoop {t t' : Table} {rks : List String}
    {rs : List (String × Bucket)} (h : statelessLoop t rks = some (t', rs))
    {rk mk : String} (hp : present t' rk mk) : present t rk mk := by
  induction rks generalizing t rs with
  | nil =>
    simp [statelessLoop] at h
    rw [← h.1] at hp
    exact hp
  | cons r rest ih =>
    unfold statelessLoop at h
    split at h
    · cases h
    rename_i b hb
    split at h
    · cases h
    rename_i t2 hz
    rw [Option.map_eq_some'] at h
    obtain ⟨q, hq, hqp⟩ := h
    obtain ⟨qt, qr⟩ := q
    have hq1 : qt = t' := congrArg Prod.fst hqp
    subst hq1
    exact present_zeroPhase hz (ih hq)

theorem present_publishTickStateless {t t' : Table} {rs : List (String × Bucket)}
    (h : publishTickStateless t = some (t', rs)) {rk mk : String}
    (hp : present t' rk mk) : present t rk mk :=
  present_statelessLoop h hp

/-- An entry of either table after a run of store operations traces back to a
record operation of that run for exactly that pair (the initial tables being
empty). -/
theorem storeExec_present {s0 s : PublishThreadState} {ops : List StoreOp}
    (h : storeExec s0 ops = some s) (rk mk : String) :
    (present s.monitoring_stateless_data rk mk →
      present s0.monitoring_stateless_data rk mk ∨
        ∃ d, StoreOp.recStateless rk mk d ∈ ops) ∧
    (present s.monitoring_statefull_data rk mk →
      present s0.monitoring_statefull_data rk mk ∨
        ∃ d, StoreOp.recStateful rk mk d ∈ ops) := by
  induction ops generalizing s0 with
  | nil =>
    simp [storeExec] at h
    subst h
    exact ⟨fun hp => Or.inl hp, fun hp => Or.inl hp⟩
  | cons op rest ih =>
    unfold storeExec at h
    rcases hstep : storeStep s0 op with _ | s1 <;> rw [hstep] at h
    · cases h
    rw [Option.some_bind] at h
    obtain ⟨ih1, ih2⟩ := ih h
    cases op with
    | recStateless rk' mk' d =>
      constructor
      · intro hp
        rcases ih1 hp with hp1 | ⟨d', hd'⟩
        · unfold storeStep at hstep
          injection hstep with hstep
          rcases hrec : recordInto s0.monitoring_stateless_data rk' mk' d with _ | tnew <;>
              rw [hrec] at hstep <;> rw [← hstep] at hp1
          · exact Or.inl hp1
          · rcases present_recordInto hrec hp1 with hp0 | ⟨rfl, rfl⟩
            · exact Or.inl hp0
            · exact Or.inr ⟨d, List.mem_cons_self _ _⟩
        · exact Or.inr ⟨d', List.mem_cons_of_mem _ hd'⟩
      · intro hp
        rcases ih2 hp with hp1 | ⟨d', hd'⟩
        · unfold storeStep at hstep
          injection hstep with hstep
          rcases hrec : recordInto s0.monitoring_stateless_data rk' mk' d with _ | tnew <;>
              rw [hrec] at hstep <;> rw [← hstep] at hp1
          · exact Or.inl hp1
          · exact Or.inl hp1
        · exact Or.inr ⟨d', List.mem_cons_of_mem _ hd'⟩
    | recStateful rk' mk' d =>
      constructor
      · intro hp
        rcases ih1 hp with hp1 | ⟨d', hd'⟩
        · unfold storeStep at hstep
          injection hstep with hstep
          rcases hrec : recordInto s0.monitoring_statefull_data rk' mk' d with _ | tnew <;>
              rw [hrec] at hstep <;> rw [← hstep] at hp1
          · exact Or.inl hp1
          · exact Or.inl hp1
        · exact Or.inr ⟨d', List.mem_cons_of_mem _ hd'⟩
      · intro hp
        rcases ih2 hp with hp1 | ⟨d', hd'⟩
        · unfold storeStep at hstep
          injection hstep with hstep
          rcases hrec : recordInto s0.monitoring_statefull_data rk' mk' d with _ | tnew <;>
              rw [hrec] at hstep <;> rw [← hstep] at hp1
          · exact Or.inl hp1
          · rcases present_recordInto hrec hp1 with hp0 | ⟨rfl, rfl⟩
            · exact Or.inl hp0
            · exact Or.inr ⟨d, List.mem_cons_self _ _⟩
        · exact Or.inr ⟨d', List.mem_cons_of_mem _ hd'⟩
    | drain =>
      unfold storeStep at hstep
      rcases htl : publishTickStateless s0.monitoring_stateless_data with _ | ptl <;>
          rw [htl] at hstep
      · cases hstep
      obtain ⟨tl, rl⟩ := ptl
      rcases htf : publishTickStatefull s0.monitoring_statefull_data with _ | ptf <;>
          rw [htf] at hstep
      · cases hstep
      obtain ⟨tf, rf⟩ := ptf
      injection hstep with hstep
      have htf1 : tf = s0.monitoring_statefull_data := statefullLoop_fst htf
      constructor
      · intro hp
        rcases ih1 hp with hp1 | ⟨d', hd'⟩
        · rw [← hstep] at hp1
          exact Or.inl (present_publishTickStateless htl hp1)
        · exact Or.inr ⟨d', List.mem_cons_of_mem _ hd'⟩
      · intro hp
        rcases ih2 hp with hp1 | ⟨d', hd'⟩
        · rw [← hstep] at hp1
          rw [htf1] at hp1
          exact Or.inl hp1
        · exact Or.inr ⟨d', List.mem_cons_of_mem _ hd'⟩

instance : DecidableEq (Table × List (String × Bucket)) := instDecidableEqProd

/-! ## Claims -/

/-- **C1.** The singleton machinery does construct once and return the same
instance afterwards, but `CrystalIntrospectionControl.__init__` never calls
`Thread.start`: both loop threads are left unstarted (`threads_started` stays
`False`), contradicting the spec's "starts both loops as background tasks". -/
theorem C1_singleton_once_threads_unstarted :
    (Singleton.Instance { cached := none }).2.2 = true ∧
    (Singleton.Instance (Singleton.Instance { cached := none }).2.1).2.2 = false ∧
    (Singleton.Instance (Singleton.Instance { cached := none }).2.1).1 =
      (Singleton.Instance { cached := none }).1 ∧
    (Singleton.Instance { cached := none }).1.control_thread.started = false ∧
    (Singleton.Instance { cached := none }).1.publish_thread.started = false ∧
    (Singleton.Instance { cached := none }).1.threads_started = false := by decide

/-- **C2.** The record operations do *not* create an absent counter at 0 when
the routing key already has a bucket: the create-at-zero `if` is nested inside
the routing-key-absent branch, so the `+=` raises `KeyError` (`none`), for both
the stateful and the stateless table.  Creation works only when the routing key
itself is absent. -/
theorem C2_record_keyerror_on_existing_bucket :
    recordInto [("rk", [("a", 1)])] "rk" "b" 3 = none ∧
    publish_statefull ⟨[("rk", [("a", 1)])], []⟩ "rk" "b" 3 = none ∧
    publish_stateless ⟨[], [("rk", [("a", 1)])]⟩ "rk" "b" 3 = none ∧
    recordInto [] "rk" "b" 3 = some [("rk", [("b", 3)])] := by decide

/-- **C3 (counterexample).** Record 5 then 3 for `("topicA","reqs")`; the first
drain reports 8 and resets the bucket to 0 — but the next drain, with no new
records, still reports `"topicA"` (with value 0) instead of leaving it out of
the stateless snapshot; only then is the bucket removed. -/
theorem C3_second_drain_reports_key :
    slExec "topicA" "reqs" [] [MetricOp.record 5, MetricOp.record 3] =
      some [("topicA", [("reqs", 8)])] ∧
    publishTickStateless [("topicA", [("reqs", 8)])] =
      some ([("topicA", [("reqs", 0)])], [("topicA", [("reqs", 8)])]) ∧
    slExec "topicA" "reqs" [] [MetricOp.record 5, MetricOp.record 3, MetricOp.drain] =
      some [("topicA", [("reqs", 0)])] ∧
    publishTickStateless [("topicA", [("reqs", 0)])] =
      some ([], [("topicA", [("reqs", 0)])]) ∧
    "topicA" ∈ ([("topicA", [("reqs", (0 : Int))])].map Prod.fst) := by decide

/-- **C3 (amended).** For every single-pair sequence of stateless records
interleaved with drains: a drain reports the sum of the deltas recorded since
the previous drain; a zero sum removes the routing key, a nonzero sum leaves it
present reset to 0; a subsequent drain with no records in between therefore
reports the routing key once more, with value 0 (not absent), and removes it
only then. -/
theorem C3_stateless_report_equals_pending (rk mk : String) (ops : List MetricOp) :
    (∃ t, slExec rk mk [] ops = some t ∧
      ((t = [] ∧ pendingSum ops = 0 ∧ publishTickStateless t = some ([], [])) ∨
        (t = [(rk, [(mk, pendingSum ops)])] ∧
          publishTickStateless t =
            some (if pendingSum ops = 0 then [] else [(rk, [(mk, 0)])],
              [(rk, [(mk, pendingSum ops)])])))) ∧
    publishTickStateless [(rk, [(mk, 0)])] = some ([], [(rk, [(mk, 0)])]) := by
  have hzero : publishTickStateless [(rk, [(mk, (0 : Int))])] =
      some ([], [(rk, [(mk, 0)])]) := by
    have h := publishTickStateless_single rk mk 0
    simpa using h
  obtain ⟨t, hex, hshape⟩ := slExec_inv rk mk ops
  rcases hshape with ⟨rfl, hp⟩ | rfl
  · exact ⟨⟨[], hex, Or.inl ⟨rfl, hp, publishTickStateless_nil⟩⟩, hzero⟩
  · exact ⟨⟨_, hex, Or.inr ⟨rfl, publishTickStateless_single rk mk _⟩⟩, hzero⟩

/-- **C4.** Single-pair stateful runs across any number of drains: the table
always holds the all-time cumulative sum once a record happened, and the
stateful flush republishes exactly the live table and leaves it unmodified. -/
theorem C4_stateful_drain_cumulative_unmodified (rk mk : String) (ops : List MetricOp) :
    ∃ t, sfExec rk mk [] ops = some t ∧
      publishTickStatefull t = some (t, t) ∧
      (hasRec ops = true → t = [(rk, [(mk, totalSum ops)])]) := by
  obtain ⟨t, hex, hshape⟩ := sfExec_inv rk mk ops
  rcases hshape with ⟨rfl, hr⟩ | ⟨hr, rfl⟩
  · exact ⟨[], hex, publishTickStatefull_nil, fun hc => by rw [hr] at hc; cases hc⟩
  · exact ⟨_, hex, publishTickStatefull_single rk mk (totalSum ops), fun _ => rfl⟩

/-- Witness for C4: the spec's own example — record `("topicB","errors",1)`
once; every later drain reports the cumulative 1 and changes nothing. -/
theorem C4_cumulative_example :
    ∃ t, sfExec "topicB" "errors" [] [MetricOp.record 1, MetricOp.drain] = some t ∧
      publishTickStatefull t = some (t, t) ∧ t = [("topicB", [("errors", 1)])] := by
  obtain ⟨t, h1, h2, h3⟩ :=
    C4_stateful_drain_cumulative_unmodified "topicB" "errors"
      [MetricOp.record 1, MetricOp.drain]
  refine ⟨t, h1, h2, ?_⟩
  have ht := h3 (by decide)
  simpa [totalSum] using ht

/-- **C5 (counterexample).** The drain holds no lock, so a record can land
between the snapshot copy (line 121) and the zero phase (123–127): record 5,
start a drain which copies `[("m", 5)]`, record 3 concurrently, finish the zero
phase — the 3 is overwritten by the reset, and drains N and N+1 together report
5 + 0 while 5 + 3 was recorded. -/
theorem C5_interleaved_record_lost :
    recordInto [] "a" "m" 5 = some [("a", [("m", 5)])] ∧
    alook [("a", [("m", (5 : Int))])] "a" = some [("m", 5)] ∧
    recordInto [("a", [("m", 5)])] "a" "m" 3 = some [("a", [("m", 8)])] ∧
    zeroPhase [("a", [("m", 8)])] "a" ["m"] = some [("a", [("m", 0)])] ∧
    publishTickStateless [("a", [("m", 0)])] = some ([], [("a", [("m", 0)])]) ∧
    (5 + 0 : Int) ≠ 5 + 3 :=
  ⟨by decide, by decide, by decide, by decide, by decide, by decide⟩

/-- **C5 (amended).** The flush is not indivisible: for any concurrent delta
`d` (with `5 + d ≠ 0` so the bucket survives the zero test), the interleaving
copy–record–zero loses `d` entirely — the totals reported across drains N and
N+1 equal the recorded totals only when `d = 0`. -/
theorem C5_drain_not_indivisible (d : Int) (hd : (5 : Int) + d ≠ 0) :
    recordInto [] "a" "m" 5 = some [("a", [("m", 5)])] ∧
    alook [("a", [("m", (5 : Int))])] "a" = some [("m", 5)] ∧
    recordInto [("a", [("m", 5)])] "a" "m" d = some [("a", [("m", 5 + d)])] ∧
    zeroPhase [("a", [("m", 5 + d)])] "a" ["m"] = some [("a", [("m", 0)])] ∧
    publishTickStateless [("a", [("m", 0)])] = some ([], [("a", [("m", 0)])]) ∧
    ((5 + 0 : Int) = 5 + d → d = 0) := by
  refine ⟨by decide, by decide, recordInto_single "a" "m" 5 d, ?_, ?_, by omega⟩
  · simp [zeroPhase, hd]
  · have h := publishTickStateless_single "a" "m" 0
    simpa using h

/-- Witness for C5 at `d = 3`. -/
theorem C5_lost_delta_example :
    recordInto [] "a" "m" 5 = some [("a", [("m", 5)])] ∧
    alook [("a", [("m", (5 : Int))])] "a" = some [("m", 5)] ∧
    recordInto [("a", [("m", 5)])] "a" "m" 3 = some [("a", [("m", 5 + 3)])] ∧
    zeroPhase [("a", [("m", 5 + 3)])] "a" ["m"] = some [("a", [("m", 0)])] ∧
    publishTickStateless [("a", [("m", 0)])] = some ([], [("a", [("m", 0)])]) ∧
    ((5 + 0 : Int) = 5 + 3 → (3 : Int) = 0) :=
  C5_drain_not_indivisible 3 (by decide)

/-- **C6 (counterexample).** No *reachable* stateless-table state aborts the
publish tick: the record operations never let a second metric key join an
existing bucket (they raise `KeyError` instead), so every reachable bucket is a
one-key bucket and the mid-iteration deletion never leaves a next key to
access. -/
theorem C6_no_reachable_abort :
    ¬ ∃ t, ReachableSL t ∧ publishTickStateless t = none := by
  rintro ⟨t, hr, hf⟩
  obtain ⟨t', rs, htick, _⟩ := publishTickStateless_good (reachable_singleton hr)
  rw [htick] at hf
  cases hf

/-- **C6 (amended).** On a (hypothetical) two-key bucket whose zero-valued key
is iterated first, the stateless drain does delete the whole routing-key entry
mid-iteration and the next key's access fails, aborting the tick — but no such
state is reachable, and on every reachable table the tick succeeds. -/
theorem C6_zero_key_aborts_but_unreachable (t : Table) (h : ReachableSL t) :
    publishTickStateless [("rk", [("z", 0), ("m", 5)])] = none ∧
    publishTickStateless t ≠ none := by
  refine ⟨by decide, ?_⟩
  obtain ⟨t', rs, htick, _⟩ := publishTickStateless_good (reachable_singleton h)
  rw [htick]
  exact fun hc => Option.noConfusion hc

/-- Witness for C6 at the (reachable) empty table. -/
theorem C6_abort_example :
    publishTickStateless [("rk", [("z", 0), ("m", 5)])] = none ∧
    publishTickStateless [] ≠ none :=
  C6_zero_key_aborts_but_unreachable [] ReachableSL.init

/-- A one-object heap for the aliasing witnesses. -/
def cHeap0 : ControlHeap :=
  { heap := fun n => if n = 0 then [("k", "v")] else [], metric_list := 0, next := 1 }

/-- **C7 (counterexample).** `get_metrics` returns the live reference itself,
so mutating the returned dict in place changes what the cached table reads —
the claim's "mutation through the returned value leaves the other unaffected"
fails. -/
theorem C7_alias_mutation_visible :
    get_metrics cHeap0 = cHeap0.metric_list ∧
    readRef cHeap0 cHeap0.metric_list = [("k", "v")] ∧
    readRef (writeRef cHeap0 (get_metrics cHeap0) [("x", "y")])
      (writeRef cHeap0 (get_metrics cHeap0) [("x", "y")]).metric_list = [("x", "y")] ∧
    ([("x", "y")] : DefTable) ≠ [("k", "v")] := by decide

/-- **C7 (amended).** `get_metrics` returns the live reference (no copy).  A
wholesale ControlLoop replacement rebinds the attribute to a fresh object, so
it leaves a previously returned reference's contents unaffected; but in-place
mutation through the returned reference mutates the cached table.  The
spec-modelled copying variant returns a distinct object whose mutation leaves
the cache untouched. -/
theorem C7_get_metrics_aliases (s : ControlHeap) (fetched t : DefTable)
    (h : s.metric_list < s.next) :
    get_metrics s = s.metric_list ∧
    readRef (controlOverwrite s fetched) (get_metrics s) = readRef s (get_metrics s) ∧
    readRef (controlOverwrite s fetched) (controlOverwrite s fetched).metric_list = fetched ∧
    readRef (writeRef s (get_metrics s) t) s.metric_list = t ∧
    (get_metrics_copy s).1 ≠ s.metric_list ∧
    readRef (get_metrics_copy s).2 (get_metrics_copy s).1 = readRef s s.metric_list ∧
    readRef (writeRef (get_metrics_copy s).2 (get_metrics_copy s).1 t) s.metric_list =
      readRef s s.metric_list := by
  have hne : s.metric_list ≠ s.next := Nat.ne_of_lt h
  refine ⟨rfl, ?_, ?_, ?_, ?_, ?_, ?_⟩
  · simp [readRef, controlOverwrite, get_metrics, hne]
  · simp [readRef, controlOverwrite]
  · simp [readRef, writeRef, get_metrics]
  · simp only [get_metrics_copy]
    exact Ne.symm hne
  · simp [readRef, get_metrics_copy]
  · simp [readRef, writeRef, get_metrics_copy, hne]

/-- Witness for C7 on the concrete one-object heap. -/
theorem C7_alias_example :
    readRef (writeRef cHeap0 (get_metrics cHeap0) [("x", "y")]) cHeap0.metric_list =
      [("x", "y")] :=
  (C7_get_metrics_aliases cHeap0 [("f", "1")] [("x", "y")] (by decide)).2.2.2.1

/-- **C8 (counterexample).** Record stateless `("a","m",5)` and drain: the run
ends with `"m"` still present under `"a"` (value 0) although nothing was
recorded since that flush — presence does not imply a delta since the last
flush. -/
theorem C8_flushed_key_stays_present :
    storeExec ⟨[], []⟩ [StoreOp.recStateless "a" "m" 5, StoreOp.drain] =
      some ⟨[], [("a", [("m", 0)])]⟩ ∧
    present [("a", [("m", (0 : Int))])] "a" "m" ∧
    opsSinceLastDrain [StoreOp.recStateless "a" "m" 5, StoreOp.drain] = [] := by decide

/-- **C8 (amended).** Presence of a `(routingKey, metricKey)` entry in either
table after any run from the empty store implies at least one record operation
for exactly that pair somewhere in the run (i.e. since the pair was first
created — not necessarily since its last flush). -/
theorem C8_presence_implies_recorded (ops : List StoreOp) (s : PublishThreadState)
    (rk mk : String) (h : storeExec ⟨[], []⟩ ops = some s) :
    (present s.monitoring_stateless_data rk mk →
      ∃ d, StoreOp.recStateless rk mk d ∈ ops) ∧
    (present s.monitoring_statefull_data rk mk →
      ∃ d, StoreOp.recStateful rk mk d ∈ ops) := by
  obtain ⟨h1, h2⟩ := storeExec_present h rk mk
  constructor
  · intro hp
    rcases h1 hp with hp0 | hd
    · obtain ⟨b, hb, _⟩ := hp0
      cases hb
    · exact hd
  · intro hp
    rcases h2 hp with hp0 | hd
    · obtain ⟨b, hb, _⟩ := hp0
      cases hb
    · exact hd

/-- Witness for C8 on a one-record run. -/
theorem C8_presence_example :
    ∃ d, StoreOp.recStateless "a" "m" d ∈ [StoreOp.recStateless "a" "m" 5] :=
  (C8_presence_implies_recorded [StoreOp.recStateless "a" "m" 5]
      ⟨[], [("a", [("m", 5)])]⟩ "a" "m" (by decide)).1 (by decide)

/-- **C9 (counterexample).** A record with empty routing and metric keys is
neither rejected nor a no-op: it accumulates under the empty strings and the
tables change. -/
theorem C9_empty_keys_change_table :
    publish_statefull ⟨[], []⟩ "" "" 5 = some ⟨[("", [("", 5)])], []⟩ ∧
    publish_stateless ⟨[], []⟩ "" "" 5 = some ⟨[], [("", [("", 5)])]⟩ ∧
    (some (⟨[("", [("", 5)])], []⟩ : PublishThreadState) ≠ some ⟨[], []⟩) := by decide

/-- **C9 (amended).** No argument validation exists: empty routing or metric
keys are accepted and accumulate exactly like any other key. -/
theorem C9_empty_keys_accumulate (v : Int) :
    publish_statefull ⟨[], []⟩ "" "" v = some ⟨[("", [("", v)])], []⟩ ∧
    publish_stateless ⟨[], []⟩ "" "" v = some ⟨[], [("", [("", v)])]⟩ := by
  constructor <;> simp [publish_statefull, publish_stateless, recordInto_empty]

/-- `ControlThread.run` events as one fetch-then-sleep block per iteration. -/
theorem controlEvents_eq_flatMap (itv n : Nat) :
    controlEvents itv n =
      (List.range n).flatMap (fun j => [ControlEvent.fetch j, ControlEvent.sleep itv]) := by
  induction n with
  | zero => rfl
  | succ n ih =>
    rw [controlEvents, ih, List.range_succ, List.flatMap_append]
    simp

/-- **C10.** `ControlThread.run`: the first fetch precedes any sleep; each
iteration is one fetch followed by one sleep of `control_interval` seconds
(default 10 when unset); each iteration's assignment replaces the cached table
wholesale with the fetched hash, so a key absent from the fetch is absent from
the cache. -/
theorem C10_control_loop_behaviour (conf : String → Option Nat)
    (hconf : conf "control_interval" = none) (fetches : Nat → DefTable) (init : DefTable)
    (n k : Nat) (key : String) (habs : alook (fetches k) key = none) :
    control_interval conf = 10 ∧
    (controlEvents (control_interval conf) (n + 1)).head? = some (ControlEvent.fetch 0) ∧
    controlEvents (control_interval conf) n =
      (List.range n).flatMap
        (fun j => [ControlEvent.fetch j, ControlEvent.sleep (control_interval conf)]) ∧
    controlCache fetches init (k + 1) = fetches k ∧
    alook (controlCache fetches init (k + 1)) key = none := by
  refine ⟨by simp [control_interval, hconf], ?_, controlEvents_eq_flatMap _ _, rfl, ?_⟩
  · rw [controlEvents_eq_flatMap, List.range_succ_eq_map, List.flatMap_cons]
    rfl
  · exact habs

/-- Witness for C10: the default interval at an absent configuration key. -/
theorem C10_default_interval_example : control_interval (fun _ => none) = 10 :=
  (C10_control_loop_behaviour (fun _ => none) rfl (fun _ => []) [] 0 0 "x" rfl).1

end CrystalIntrospection
